import Mathlib

/-!
Verification of the VCF contact-enrichment reconciliation workflow of the
ai-personal-secretary repository.

The classifier and name normalization are embedded from the repository's own
code for `match_vcf_to_contact` (src/Overview.md §6, the body of
`backend/app/services/rag/contact_parsers.py`).  The React client state
machinery is embedded from src/frontend/src/hooks/useVcf.ts and
src/frontend/src/types/index.ts; the Flutter confirm flow from
src/unnamed/part_002 (`_confirmEnrichment`).  The backend Action Resolver and
Reconciliation Committer themselves are not in the source tree; they are
modelled from the spec where indicated.
-/

/-! ## Python string primitives

`str.lower()` is modelled on the ASCII range via `Char.toLower` (the basic
latin letters, which is also all `Char.toLower` handles).  `str.split()` with
no separator splits on runs of whitespace and drops empty fields; `str.strip()`
removes whitespace from both ends; `' '.join(..)` interleaves single spaces. -/

/-- Whitespace recognised by Python `str.split()` / `str.strip()` (ASCII part). -/
def isWs (c : Char) : Bool :=
  c = ' ' || c = '\t' || c = '\n' || c = '\r' || c = '\x0b' || c = '\x0c'

/-- Python `s.split()` on a list of characters: maximal whitespace-free runs,
leading/trailing/repeated whitespace dropped. -/
def words : List Char → List (List Char)
  | [] => []
  | [c] => if isWs c then [] else [[c]]
  | c :: c2 :: cs =>
    if isWs c then words (c2 :: cs)
    else if isWs c2 then [c] :: words cs
    else
      match words (c2 :: cs) with
      | [] => [[c]]
      | t :: ts => (c :: t) :: ts

/-- Python `' '.join(tokens)` on lists of characters. -/
def joinSp : List (List Char) → List Char
  | [] => []
  | [t] => t
  | t :: ts => t ++ ' ' :: joinSp ts

/-- Python `s.lower()` (ASCII range). -/
def pyLower (s : String) : String :=
  String.mk (s.toList.map Char.toLower)

/-- Python `s.strip()`. -/
def pyStrip (s : String) : String :=
  String.mk (((s.toList.dropWhile isWs).reverse.dropWhile isWs).reverse)

/-- Python `s.split()` at the `String` level. -/
def pySplit (s : String) : List String :=
  (words s.toList).map String.mk

/-- The VCF name normalization used by the classifier:
`' '.join(full_name.lower().split())` (src/Overview.md §6, line
`vcf_name = ' '.join(vcf_contact['full_name'].lower().split())`). -/
def normalizeVcfName (s : String) : String :=
  String.mk (joinSp (words (s.toList.map Char.toLower)))

/-! ## Data model -/

/-- Classification of one incoming contact against the existing set.
The source's `"partial"` string is the constructor `part` here. -/
inductive MatchType
  | exact
  | part
  | none
deriving DecidableEq, Repr

/-- A persisted contact (`ExistingContact`): row of the relational contact
store, per the spec's data model (§3) and the `Person` shape of
src/frontend/src/types/index.ts. -/
structure ExistingContact where
  id : Nat
  first_name : String
  last_name : String
  email : Option String
  phone : Option String
  company : Option String
  position : Option String
  files : List String
deriving DecidableEq, Repr

/-- A contact parsed out of an uploaded VCF/CSV file (`IncomingContact`). -/
structure IncomingContact where
  full_name : String
  email : Option String
  phone : Option String
deriving DecidableEq, Repr

/-- Result of classifying one incoming contact: `{"match_type": ..,
"contact": matched_contact or None}` (src/Overview.md §6). -/
structure MatchResult where
  match_type : MatchType
  contact : Option ExistingContact
deriving DecidableEq, Repr

/-- Strategy 1 comparison key of an existing contact:
`f"{contact['first_name']} {contact['last_name']}".lower().strip()`. -/
def contactFullKey (c : ExistingContact) : String :=
  pyStrip (pyLower (c.first_name ++ " " ++ c.last_name))

/-- Strategy 1 test: exact full-name string match. -/
def strat1 (vcf_name : String) (c : ExistingContact) : Bool :=
  vcf_name == contactFullKey c

/-- Strategy 2 exact-component test: first and last token equal the
lower-cased first and last names. -/
def strat2exact (vcf_first vcf_last : String) (c : ExistingContact) : Bool :=
  vcf_first == pyLower c.first_name && vcf_last == pyLower c.last_name

/-- Strategy 2 partial test: last name equal, first name different. -/
def strat2part (vcf_first vcf_last : String) (c : ExistingContact) : Bool :=
  vcf_last == pyLower c.last_name && vcf_first != pyLower c.first_name

/-- Strategy 3 single-token test: the token equals the lower-cased first
or last name. -/
def strat3 (tok : String) (c : ExistingContact) : Bool :=
  tok == pyLower c.first_name || tok == pyLower c.last_name

/-- The 3-tier Match Classifier, embedded from `match_vcf_to_contact`
(src/Overview.md §6; `backend/app/services/rag/contact_parsers.py`).
Each `for` loop over `existing_contacts` with an early `return` is
`List.find?` with the loop's test. -/
def matchVcfToContact (vcf : IncomingContact) (existing : List ExistingContact) : MatchResult :=
  let vcf_name := normalizeVcfName vcf.full_name
  let vcf_parts := pySplit vcf_name
  match existing.find? (strat1 vcf_name) with
  | some c => ⟨MatchType.exact, some c⟩
  | Option.none =>
    if 2 ≤ vcf_parts.length then
      let vcf_first := vcf_parts.headD ""
      let vcf_last := vcf_parts.getLastD ""
      match existing.find? (strat2exact vcf_first vcf_last) with
      | some c => ⟨MatchType.exact, some c⟩
      | Option.none =>
        match existing.find? (strat2part vcf_first vcf_last) with
        | some c => ⟨MatchType.part, some c⟩
        | Option.none => ⟨MatchType.none, Option.none⟩
    else if vcf_parts.length = 1 then
      match existing.find? (strat3 (vcf_parts.headD "")) with
      | some c => ⟨MatchType.part, some c⟩
      | Option.none => ⟨MatchType.none, Option.none⟩
    else ⟨MatchType.none, Option.none⟩

/-! ## Frontend data shapes and client flows -/

/-- Per-contact action chosen by the user. -/
inductive ContactAction
  | merge
  | create
  | skip
deriving DecidableEq, Repr

/-- The per-contact record of a match report as the React client declares it
(`VcfContact`, src/frontend/src/types/index.ts lines 40-48).  `index` is
typed `string` there ("or number, keeping consistent with backend"). -/
structure VcfContact where
  index : String
  vcf_name : String
  vcf_email : Option String
  vcf_phone : Option String
  match_type : MatchType
  matched_contact_name : Option String
  matched_contact_company : Option String
deriving DecidableEq, Repr

/-- The field names of the `VcfContact` interface, in declaration order
(src/frontend/src/types/index.ts lines 40-48). -/
def vcfContactFields : List String :=
  ["index", "vcf_name", "vcf_email", "vcf_phone", "match_type",
   "matched_contact_name", "matched_contact_company"]

/-- The match report as the React client declares it (`VcfMatchReport`,
src/frontend/src/types/index.ts lines 50-56). -/
structure VcfMatchReport where
  total_vcf_contacts : Nat
  exact_matches : Nat
  partial_matches : Nat
  no_matches : Nat
  all_contacts : List VcfContact
deriving DecidableEq, Repr

/-- The initial per-contact action proposal computed on upload
(src/frontend/src/hooks/useVcf.ts lines 27-33):
`initialActions[contact.index] = contact.match_type === 'exact' ? 'merge' : 'skip'`. -/
def initialVcfActions (contacts : List VcfContact) : List (String × ContactAction) :=
  contacts.map (fun c =>
    (c.index, if c.match_type = MatchType.exact then ContactAction.merge else ContactAction.skip))

/-- The Flutter client's action map built in `_confirmEnrichment`
(src/unnamed/part_002 lines 140-146): `merge` for `exact`, `create`
for everything else. -/
def flutterContactActions (contacts : List VcfContact) : List (String × ContactAction) :=
  contacts.map (fun c =>
    (c.index, if c.match_type = MatchType.exact then ContactAction.merge else ContactAction.create))

/-- Status toast kind of the React client (`UploadStatus`). -/
inductive StatusType
  | success
  | error
  | info
deriving DecidableEq, Repr

/-- `UploadStatus` of src/frontend/src/types/index.ts. -/
structure UploadStatus where
  type : StatusType
  message : String
deriving DecidableEq, Repr

/-- The state cells of the `useVcf` hook (src/frontend/src/hooks/useVcf.ts
lines 6-12) that the enrichment flow mutates. -/
structure VcfHookState where
  showVcfModal : Bool
  vcfMatchReport : Option VcfMatchReport
  vcfTempDir : Option String
  vcfOverwriteMode : Bool
  vcfContactActions : List (String × ContactAction)
  uploadStatus : Option UploadStatus
deriving DecidableEq, Repr

/-- HTTP requests the hook can issue against the backend. -/
inductive ApiCall
  | confirmVcfEnrichment (user_id : String) (temp_dir : String) (overwrite : Bool)
      (contact_actions : List (String × ContactAction))
deriving DecidableEq, Repr

/-- Outcome of the awaited confirm-enrichment request. -/
inductive ReqOutcome
  | ok (enriched_count : Nat) (created_count : Nat)
  | err
deriving DecidableEq, Repr

/-- `handleCancelVcfEnrichment` (src/frontend/src/hooks/useVcf.ts lines
87-94): closes the modal, clears the report, temp dir and actions, sets an
info status; issues no HTTP request. -/
def handleCancelVcfEnrichment (s : VcfHookState) : VcfHookState × List ApiCall :=
  ({ s with
      showVcfModal := false
      vcfMatchReport := Option.none
      vcfTempDir := Option.none
      vcfContactActions := []
      uploadStatus := some ⟨StatusType.info, "❌ Enrichment canceled"⟩ },
   [])

/-- `handleConfirmVcfEnrichment` (src/frontend/src/hooks/useVcf.ts lines
53-85), as a transition parameterized by the awaited request outcome.  It
returns early when `vcfTempDir` is null; otherwise it posts the confirm
request and, on success, clears the report, temp dir and actions; on failure
it only sets the error status. -/
def handleConfirmVcfEnrichment (userId : String) (s : VcfHookState) (res : ReqOutcome) :
    VcfHookState × List ApiCall :=
  match s.vcfTempDir with
  | Option.none => (s, [])
  | some temp_dir =>
    let s1 := { s with
        uploadStatus := some ⟨StatusType.info, "⚙️ Applying enrichment..."⟩
        showVcfModal := false }
    let call := ApiCall.confirmVcfEnrichment userId temp_dir s.vcfOverwriteMode s.vcfContactActions
    match res with
    | ReqOutcome.ok enriched created =>
      ({ s1 with
          uploadStatus := some ⟨StatusType.success,
            "✅ Enriched " ++ toString enriched ++ " contacts!" ++
              (if 0 < created then " Created " ++ toString created ++ " new." else "")⟩
          vcfMatchReport := Option.none
          vcfTempDir := Option.none
          vcfContactActions := [] },
       [call])
    | ReqOutcome.err =>
      ({ s1 with uploadStatus := some ⟨StatusType.error, "❌ Enrichment failed"⟩ }, [call])

/-! ## Spec-modelled backend core

The Action Resolver and Reconciliation Committer live in the backend
(`backend/app/api/routes/contacts.py` per src/README.md), which is not part
of the source tree; the definitions below are modelled from the spec
(§3, §4.4, §4.5, §6, §7). -/

/-- Modelled from the spec: a per-contact record of the server-side
MatchReport (§3, §6): stable 0-based index, the incoming contact, its
classification and the matched contact id if any. -/
structure ReportEntry where
  index : Nat
  incoming : IncomingContact
  match_type : MatchType
  matched_id : Option Nat
deriving DecidableEq, Repr

/-- Modelled from the spec: the MatchReport aggregate (§3): all entries, the
opaque staged-file reference (`temp_dir`), and any batch attachments. -/
structure MatchReport where
  entries : List ReportEntry
  temp_dir : String
  attachments : List String
deriving DecidableEq, Repr

/-- Modelled from the spec: the two backing stores (§4.5): the relational
contact store and the vector-index namespace (entries tagged by contact id). -/
structure Stores where
  contacts : List ExistingContact
  vector : List (Nat × String)
deriving DecidableEq, Repr

/-- A per-item failure recorded in the outcome: index and reason (§7). -/
structure ItemFailure where
  index : Nat
  reason : String
deriving DecidableEq, Repr

/-- Modelled from the spec: the EnrichmentOutcome (§3): counts of
merged/created/skipped plus the per-item failure list. -/
structure EnrichmentOutcome where
  merged : Nat
  created : Nat
  skipped : Nat
  failures : List ItemFailure
deriving DecidableEq, Repr

/-- Modelled from the spec: `InvalidActionError` names the offending
index (§4.4, §7). -/
structure InvalidActionError where
  index : Nat
deriving DecidableEq, Repr

/-- Modelled from the spec: action lookup with the safety default (§4.4):
"Every index not present in the action map defaults to `skip`". -/
def resolveAction (actions : List (Nat × ContactAction)) (idx : Nat) : ContactAction :=
  match actions.lookup idx with
  | some a => a
  | Option.none => ContactAction.skip

/-- Modelled from the spec: the validation test of §4.4: `merge` submitted
against a `none` classification is invalid. -/
def violatesMergePolicy (actions : List (Nat × ContactAction)) (e : ReportEntry) : Bool :=
  decide (resolveAction actions e.index = ContactAction.merge ∧ e.match_type = MatchType.none)

/-- Modelled from the spec: field-merge policy for an optional field (§4.5):
with `overwrite` every non-empty incoming field replaces the existing value;
without it only empty/null existing fields are filled (non-destructive). -/
def mergeOptField (overwrite : Bool) (incoming existing : Option String) : Option String :=
  match incoming with
  | Option.none => existing
  | some v =>
    if v = "" then existing
    else if overwrite then some v
    else
      match existing with
      | Option.none => some v
      | some ev => if ev = "" then some v else existing

/-- Modelled from the spec: merge of a mandatory name field (§4.5): same
policy, and "Name fields are never downgraded to empty" — an empty incoming
part never replaces anything. -/
def mergeNamePart (overwrite : Bool) (incoming existing : String) : String :=
  if incoming = "" then existing
  else if overwrite then incoming
  else if existing = "" then incoming
  else existing

/-- First name taken from an incoming contact: first whitespace token of its
full name. -/
def incomingFirstName (inc : IncomingContact) : String :=
  (pySplit inc.full_name).headD ""

/-- Last name taken from an incoming contact: the remaining tokens joined. -/
def incomingLastName (inc : IncomingContact) : String :=
  String.intercalate " " (pySplit inc.full_name).tail

/-- Modelled from the spec: merging an incoming contact into a matched
existing contact (§4.5). -/
def mergeContact (overwrite : Bool) (inc : IncomingContact) (c : ExistingContact) : ExistingContact :=
  { c with
      first_name := mergeNamePart overwrite (incomingFirstName inc) c.first_name
      last_name := mergeNamePart overwrite (incomingLastName inc) c.last_name
      email := mergeOptField overwrite inc.email c.email
      phone := mergeOptField overwrite inc.phone c.phone }

/-- Modelled from the spec: a fresh contact row created from incoming
fields (§4.5 `create`). -/
def contactOfIncoming (nid : Nat) (inc : IncomingContact) : ExistingContact :=
  ⟨nid, incomingFirstName inc, incomingLastName inc, inc.email, inc.phone,
   Option.none, Option.none, []⟩

/-- Next free contact id in the relational store. -/
def freshId (st : Stores) : Nat :=
  (st.contacts.map ExistingContact.id).foldr max 0 + 1

/-- The zero outcome. -/
def emptyOutcome : EnrichmentOutcome := ⟨0, 0, 0, []⟩

/-- Pointwise combination of outcomes (counts add, failure lists append). -/
def addOutcome (a b : EnrichmentOutcome) : EnrichmentOutcome :=
  ⟨a.merged + b.merged, a.created + b.created, a.skipped + b.skipped, a.failures ++ b.failures⟩

/-- Modelled from the spec: processing of one resolved item (§4.5): `skip`
is a counted no-op; `create` inserts a fresh contact and indexes the batch
attachments into its vector namespace; `merge` updates the matched contact's
fields.  `storeFail` is the store layer: `some reason` means the write for
that index fails (PersistenceFailure, §7), which is caught and recorded. -/
def applyOne (overwrite : Bool) (storeFail : Nat → Option String) (attachments : List String)
    (actions : List (Nat × ContactAction)) (e : ReportEntry) (st : Stores) :
    EnrichmentOutcome × Stores :=
  match resolveAction actions e.index with
  | ContactAction.skip => (⟨0, 0, 1, []⟩, st)
  | ContactAction.create =>
    match storeFail e.index with
    | some reason => (⟨0, 0, 0, [⟨e.index, reason⟩]⟩, st)
    | Option.none =>
      let nid := freshId st
      (⟨0, 1, 0, []⟩,
       ⟨st.contacts ++ [contactOfIncoming nid e.incoming],
        st.vector ++ attachments.map (fun f => (nid, f))⟩)
  | ContactAction.merge =>
    match storeFail e.index with
    | some reason => (⟨0, 0, 0, [⟨e.index, reason⟩]⟩, st)
    | Option.none =>
      match e.matched_id with
      | Option.none => (⟨0, 0, 0, [⟨e.index, "no matched contact"⟩]⟩, st)
      | some mid =>
        (⟨1, 0, 0, []⟩,
         ⟨st.contacts.map (fun c => if c.id = mid then mergeContact overwrite e.incoming c else c),
          st.vector⟩)

/-- Modelled from the spec: sequential per-item application in index order
(§4.5), each item's failure isolated from the rest. -/
def applyItems (overwrite : Bool) (storeFail : Nat → Option String) (attachments : List String)
    (actions : List (Nat × ContactAction)) :
    List ReportEntry → Stores → EnrichmentOutcome × Stores
  | [], st => (emptyOutcome, st)
  | e :: es, st =>
    let r := applyOne overwrite storeFail attachments actions e st
    let rest := applyItems overwrite storeFail attachments actions es r.2
    (addOutcome r.1 rest.1, rest.2)

/-- Modelled from the spec: `Commit` (§6): §4.4 validation first — `merge`
against a `none` classification aborts the whole call with
`InvalidActionError`, nothing applied — then §4.5 per-item application;
staged files referenced by the report are deleted as a final step
regardless of outcome. -/
def commit (report : MatchReport) (actions : List (Nat × ContactAction)) (overwrite : Bool)
    (storeFail : Nat → Option String) (st : Stores) (staged : List String) :
    Except InvalidActionError EnrichmentOutcome × Stores × List String :=
  let staged2 := staged.filter (fun d => !(d == report.temp_dir))
  match report.entries.find? (violatesMergePolicy actions) with
  | some e => (Except.error ⟨e.index⟩, st, staged2)
  | Option.none =>
    let r := applyItems overwrite storeFail report.attachments actions report.entries st
    (Except.ok r.1, r.2, staged2)

/-- Modelled from the spec: `Cancel` (§6): discards the report and deletes
its staged files; no other side effects. -/
def cancelServer (report : MatchReport) (st : Stores) (staged : List String) :
    Stores × List String :=
  (st, staged.filter (fun d => !(d == report.temp_dir)))

/-! ## Shape predicates for the normalizer -/

/-- The first character, if any, is not whitespace. -/
def headNotWs : List Char → Bool
  | [] => true
  | c :: _ => !isWs c

/-- No two adjacent whitespace characters. -/
def noDoubleWs : List Char → Bool
  | a :: b :: r => (!(isWs a && isWs b)) && noDoubleWs (b :: r)
  | _ => true

/-- The last character, if any, is not whitespace. -/
def lastNotWs (l : List Char) : Bool :=
  headNotWs l.reverse

/-- A normalized string shape: trimmed at both ends and no internal
whitespace run longer than one character. -/
def normShape (l : List Char) : Bool :=
  headNotWs l && lastNotWs l && noDoubleWs l

/-! ## Helper lemmas: characters and words -/

theorem char_toNat_ofNat_of_lt {n : Nat} (h : n < 0xd800) : (Char.ofNat n).toNat = n := by
  simp [Char.ofNat, Nat.isValidChar, h, Char.ofNatAux, Char.toNat, UInt32.toNat,
    UInt32.ofNat', BitVec.toNat_ofNatLt]

theorem char_toLower_eq (c : Char) :
    c.toLower = if c.toNat ≥ 65 ∧ c.toNat ≤ 90 then Char.ofNat (c.toNat + 32) else c := rfl

theorem char_toLower_idem (c : Char) : c.toLower.toLower = c.toLower := by
  rw [char_toLower_eq c, char_toLower_eq]
  split
  · next h =>
    have hv : (Char.ofNat (c.toNat + 32)).toNat = c.toNat + 32 :=
      char_toNat_ofNat_of_lt (by omega)
    rw [hv, if_neg (by omega)]
  · rfl

theorem isWs_space : isWs ' ' = true := rfl

theorem char_toLower_space : Char.toLower ' ' = ' ' := rfl

theorem words_nil : words [] = [] := rfl

theorem words_ws_cons (c : Char) (l : List Char) (h : isWs c = true) :
    words (c :: l) = words l := by
  cases l with
  | nil => simp [words, h]
  | cons b bs => simp [words, h]

theorem words_wsfree (t : List Char) (h1 : t ≠ []) (h2 : ∀ c ∈ t, isWs c = false) :
    words t = [t] := by
  induction t with
  | nil => exact absurd rfl h1
  | cons c t' ih =>
    cases t' with
    | nil => simp [words, h2 c (by simp)]
    | cons c2 t'' =>
      have hc : isWs c = false := h2 c (by simp)
      have hc2 : isWs c2 = false := h2 c2 (by simp)
      have ih' : words (c2 :: t'') = [c2 :: t''] := by
        refine ih (by simp) ?_
        intro x hx
        exact h2 x (List.mem_cons_of_mem c hx)
      simp [words, hc, hc2, ih']

theorem words_append_sep (t r : List Char) (h1 : t ≠ []) (h2 : ∀ c ∈ t, isWs c = false) :
    words (t ++ ' ' :: r) = t :: words r := by
  induction t with
  | nil => exact absurd rfl h1
  | cons c t' ih =>
    cases t' with
    | nil =>
      have hc : isWs c = false := h2 c (by simp)
      simp [words, hc, isWs_space]
    | cons c2 t'' =>
      have hc : isWs c = false := h2 c (by simp)
      have hc2 : isWs c2 = false := h2 c2 (by simp)
      have ih' : words ((c2 :: t'') ++ ' ' :: r) = (c2 :: t'') :: words r := by
        refine ih (by simp) ?_
        intro x hx
        exact h2 x (List.mem_cons_of_mem c hx)
      simp only [List.cons_append] at ih' ⊢
      simp [words, hc, hc2, ih']

theorem words_mem_props :
    ∀ l : List Char, ∀ t ∈ words l, t ≠ [] ∧ ∀ c ∈ t, isWs c = false := by
  intro l
  induction l using words.induct with
  | case1 => intro t ht; simp [words] at ht
  | case2 c h => intro t ht; simp [words, h] at ht
  | case3 c h =>
    intro t ht
    simp only [words, Bool.not_eq_true] at h ht
    rw [if_neg (by simp [h])] at ht
    simp only [List.mem_singleton] at ht
    subst ht
    exact ⟨by simp, by intro x hx; simp only [List.mem_singleton] at hx; subst hx; simp [h]⟩
  | case4 c c2 cs h ih =>
    intro t ht
    rw [words_ws_cons c (c2 :: cs) h] at ht
    exact ih t ht
  | case5 c c2 cs h h2 ih =>
    intro t ht
    simp only [Bool.not_eq_true] at h
    simp only [words, h, Bool.false_eq_true, if_false, h2, if_true] at ht
    rcases List.mem_cons.1 ht with h' | h'
    · subst h'
      exact ⟨by simp, by intro x hx; simp only [List.mem_singleton] at hx; subst hx; simp [h]⟩
    · exact ih t h'
  | case6 c c2 cs h h2 hw ih =>
    intro t ht
    simp only [Bool.not_eq_true] at h h2
    simp only [words, h, Bool.false_eq_true, if_false, h2, hw] at ht
    simp only [List.mem_singleton] at ht
    subst ht
    exact ⟨by simp, by intro x hx; simp only [List.mem_singleton] at hx; subst hx; simp [h]⟩
  | case7 c c2 cs h h2 t0 ts hw ih =>
    intro t ht
    simp only [Bool.not_eq_true] at h h2
    simp only [words, h, Bool.false_eq_true, if_false, h2, hw] at ht
    rcases List.mem_cons.1 ht with h' | h'
    · subst h'
      have ht0 := ih t0 (by rw [hw]; simp)
      refine ⟨by simp, ?_⟩
      intro x hx
      rcases List.mem_cons.1 hx with h'' | h''
      · subst h''; simp [h]
      · exact ht0.2 x h''
    · exact ih t (by rw [hw]; exact List.mem_cons_of_mem t0 h')

theorem words_subset :
    ∀ l : List Char, ∀ t ∈ words l, ∀ c ∈ t, c ∈ l := by
  intro l
  induction l using words.induct with
  | case1 => intro t ht; simp [words] at ht
  | case2 c h => intro t ht; simp [words, h] at ht
  | case3 c h =>
    intro t ht
    simp only [words, Bool.not_eq_true] at h ht
    rw [if_neg (by simp [h])] at ht
    simp only [List.mem_singleton] at ht
    subst ht
    intro x hx
    simpa using hx
  | case4 c c2 cs h ih =>
    intro t ht x hx
    rw [words_ws_cons c (c2 :: cs) h] at ht
    exact List.mem_cons_of_mem c (ih t ht x hx)
  | case5 c c2 cs h h2 ih =>
    intro t ht x hx
    simp only [Bool.not_eq_true] at h
    simp only [words, h, Bool.false_eq_true, if_false, h2, if_true] at ht
    rcases List.mem_cons.1 ht with h' | h'
    · subst h'
      simp only [List.mem_singleton] at hx
      subst hx
      simp
    · have := ih t h' x hx
      exact List.mem_cons_of_mem _ (List.mem_cons_of_mem _ this)
  | case6 c c2 cs h h2 hw ih =>
    intro t ht x hx
    simp only [Bool.not_eq_true] at h h2
    simp only [words, h, Bool.false_eq_true, if_false, h2, hw] at ht
    simp only [List.mem_singleton] at ht
    subst ht
    simp only [List.mem_singleton] at hx
    subst hx
    simp
  | case7 c c2 cs h h2 t0 ts hw ih =>
    intro t ht x hx
    simp only [Bool.not_eq_true] at h h2
    simp only [words, h, Bool.false_eq_true, if_false, h2, hw] at ht
    rcases List.mem_cons.1 ht with h' | h'
    · subst h'
      rcases List.mem_cons.1 hx with h'' | h''
      · subst h''; simp
      · have := ih t0 (by rw [hw]; simp) x h''
        exact List.mem_cons_of_mem _ this
    · have := ih t (by rw [hw]; exact List.mem_cons_of_mem t0 h') x hx
      exact List.mem_cons_of_mem _ this

theorem joinSp_cons₂ (t t2 : List Char) (ts : List (List Char)) :
    joinSp (t :: t2 :: ts) = t ++ ' ' :: joinSp (t2 :: ts) := rfl

theorem joinSp_ne_nil (t : List Char) (ts : List (List Char)) (h : t ≠ []) :
    joinSp (t :: ts) ≠ [] := by
  cases ts with
  | nil => simpa [joinSp] using h
  | cons t2 ts' =>
    rw [joinSp_cons₂]
    simp [h]

theorem words_joinSp (ts : List (List Char))
    (h : ∀ t ∈ ts, t ≠ [] ∧ ∀ c ∈ t, isWs c = false) :
    words (joinSp ts) = ts := by
  induction ts with
  | nil => rfl
  | cons t rest ih =>
    cases rest with
    | nil =>
      have ht := h t (by simp)
      simpa [joinSp] using words_wsfree t ht.1 ht.2
    | cons t2 ts' =>
      have ht := h t (by simp)
      rw [joinSp_cons₂, words_append_sep t (joinSp (t2 :: ts')) ht.1 ht.2]
      have ih' : words (joinSp (t2 :: ts')) = t2 :: ts' := by
        refine ih ?_
        intro x hx
        exact h x (List.mem_cons_of_mem t hx)
      rw [ih']

theorem mem_joinSp (ts : List (List Char)) (c : Char) (hc : c ∈ joinSp ts) :
    (∃ t ∈ ts, c ∈ t) ∨ c = ' ' := by
  induction ts with
  | nil => simp [joinSp] at hc
  | cons t rest ih =>
    cases rest with
    | nil =>
      simp only [joinSp] at hc
      exact Or.inl ⟨t, by simp, hc⟩
    | cons t2 ts' =>
      rw [joinSp_cons₂] at hc
      rcases List.mem_append.1 hc with h' | h'
      · exact Or.inl ⟨t, by simp, h'⟩
      · rcases List.mem_cons.1 h' with h'' | h''
        · exact Or.inr h''
        · rcases ih h'' with ⟨t', ht', hct'⟩ | h3
          · exact Or.inl ⟨t', List.mem_cons_of_mem t ht', hct'⟩
          · exact Or.inr h3

theorem map_eq_self_of {α : Type} (f : α → α) (l : List α) (h : ∀ c ∈ l, f c = c) :
    l.map f = l := by
  induction l with
  | nil => rfl
  | cons a l ih =>
    simp only [List.map_cons, h a (by simp), ih (fun c hc => h c (List.mem_cons_of_mem a hc))]

theorem string_toList_mk (l : List Char) : (String.mk l).toList = l := rfl

theorem normalize_chars_lower (s : String) :
    ∀ c ∈ (normalizeVcfName s).toList, Char.toLower c = c := by
  intro c hc
  rw [normalizeVcfName, string_toList_mk] at hc
  rcases mem_joinSp _ c hc with ⟨t, ht, hct⟩ | h'
  · have := words_subset _ t ht c hct
    rcases List.mem_map.1 this with ⟨d, _, hd⟩
    rw [← hd]
    exact char_toLower_idem d
  · subst h'
    exact char_toLower_space

theorem normalizeVcfName_idem (s : String) :
    normalizeVcfName (normalizeVcfName s) = normalizeVcfName s := by
  have hfix : (normalizeVcfName s).toList.map Char.toLower = (normalizeVcfName s).toList :=
    map_eq_self_of _ _ (normalize_chars_lower s)
  have hgood : ∀ t ∈ words (s.toList.map Char.toLower), t ≠ [] ∧ ∀ c ∈ t, isWs c = false :=
    words_mem_props _
  conv_lhs => rw [normalizeVcfName, hfix]
  rw [normalizeVcfName, string_toList_mk, words_joinSp _ hgood]

theorem headNotWs_append (a b : List Char) (h : a ≠ []) :
    headNotWs (a ++ b) = headNotWs a := by
  cases a with
  | nil => exact absurd rfl h
  | cons c a' => rfl

theorem headNotWs_wsfree (t : List Char) (h : ∀ c ∈ t, isWs c = false) :
    headNotWs t = true := by
  cases t with
  | nil => rfl
  | cons c t' => simp [headNotWs, h c (by simp)]

theorem headNotWs_joinSp (ts : List (List Char))
    (h : ∀ t ∈ ts, t ≠ [] ∧ ∀ c ∈ t, isWs c = false) :
    headNotWs (joinSp ts) = true := by
  cases ts with
  | nil => rfl
  | cons t rest =>
    have ht := h t (by simp)
    cases rest with
    | nil => exact headNotWs_wsfree t ht.2
    | cons t2 ts' =>
      rw [joinSp_cons₂, headNotWs_append t _ ht.1]
      exact headNotWs_wsfree t ht.2

theorem lastNotWs_wsfree (t : List Char) (h2 : ∀ c ∈ t, isWs c = false) :
    lastNotWs t = true := by
  rw [lastNotWs]
  refine headNotWs_wsfree _ ?_
  intro c hc
  exact h2 c (List.mem_reverse.1 hc)

theorem lastNotWs_joinSp (ts : List (List Char))
    (h : ∀ t ∈ ts, t ≠ [] ∧ ∀ c ∈ t, isWs c = false) :
    lastNotWs (joinSp ts) = true := by
  induction ts with
  | nil => rfl
  | cons t rest ih =>
    have ht := h t (by simp)
    cases rest with
    | nil => exact lastNotWs_wsfree t ht.2
    | cons t2 ts' =>
      have hrest : ∀ x ∈ t2 :: ts', x ≠ [] ∧ ∀ c ∈ x, isWs c = false :=
        fun x hx => h x (List.mem_cons_of_mem t hx)
      have hne : joinSp (t2 :: ts') ≠ [] := joinSp_ne_nil t2 ts' (hrest t2 (by simp)).1
      have hne' : (joinSp (t2 :: ts')).reverse ≠ [] := by
        simpa using hne
      rw [joinSp_cons₂, lastNotWs, List.reverse_append, List.reverse_cons,
        List.append_assoc, headNotWs_append _ _ hne']
      exact ih hrest

theorem noDoubleWs_append_wsfree (xs ys : List Char)
    (hxs : ∀ c ∈ xs, isWs c = false) (hys : noDoubleWs ys = true) :
    noDoubleWs (xs ++ ys) = true := by
  induction xs with
  | nil => simpa using hys
  | cons x xs' ih =>
    have hx : isWs x = false := hxs x (by simp)
    have ih' : noDoubleWs (xs' ++ ys) = true :=
      ih (fun c hc => hxs c (List.mem_cons_of_mem x hc))
    rw [List.cons_append]
    cases hcase : xs' ++ ys with
    | nil => simp [noDoubleWs]
    | cons z zs =>
      rw [hcase] at ih'
      simp [noDoubleWs, hx, ih']

theorem noDoubleWs_joinSp (ts : List (List Char))
    (h : ∀ t ∈ ts, t ≠ [] ∧ ∀ c ∈ t, isWs c = false) :
    noDoubleWs (joinSp ts) = true := by
  induction ts with
  | nil => rfl
  | cons t rest ih =>
    have ht := h t (by simp)
    cases rest with
    | nil =>
      show noDoubleWs t = true
      simpa using noDoubleWs_append_wsfree t [] ht.2 rfl
    | cons t2 ts' =>
      have hrest : ∀ x ∈ t2 :: ts', x ≠ [] ∧ ∀ c ∈ x, isWs c = false :=
        fun x hx => h x (List.mem_cons_of_mem t hx)
      have ihead : headNotWs (joinSp (t2 :: ts')) = true := headNotWs_joinSp _ hrest
      have itail : noDoubleWs (joinSp (t2 :: ts')) = true := ih hrest
      rw [joinSp_cons₂]
      refine noDoubleWs_append_wsfree t _ ht.2 ?_
      cases hj : joinSp (t2 :: ts') with
      | nil => simp [noDoubleWs]
      | cons z zs =>
        rw [hj] at ihead itail
        simp only [headNotWs, Bool.not_eq_true'] at ihead
        simp [noDoubleWs, ihead, itail]

theorem normShape_normalizeVcfName (s : String) :
    normShape (normalizeVcfName s).toList = true := by
  have hgood := words_mem_props (s.toList.map Char.toLower)
  rw [normalizeVcfName, string_toList_mk, normShape,
    headNotWs_joinSp _ hgood, lastNotWs_joinSp _ hgood, noDoubleWs_joinSp _ hgood]
  rfl

/-! ## Helper lemmas: the committer fold -/

theorem addOutcome_empty_left (b : EnrichmentOutcome) : addOutcome emptyOutcome b = b := by
  cases b
  simp [addOutcome, emptyOutcome]

theorem addOutcome_assoc (a b c : EnrichmentOutcome) :
    addOutcome (addOutcome a b) c = addOutcome a (addOutcome b c) := by
  simp [addOutcome, Nat.add_assoc]

theorem applyItems_nil (overwrite : Bool) (storeFail : Nat → Option String)
    (attachments : List String) (actions : List (Nat × ContactAction)) (st : Stores) :
    applyItems overwrite storeFail attachments actions [] st = (emptyOutcome, st) := rfl

theorem applyItems_cons (overwrite : Bool) (storeFail : Nat → Option String)
    (attachments : List String) (actions : List (Nat × ContactAction))
    (e : ReportEntry) (es : List ReportEntry) (st : Stores) :
    applyItems overwrite storeFail attachments actions (e :: es) st =
      (addOutcome (applyOne overwrite storeFail attachments actions e st).1
        (applyItems overwrite storeFail attachments actions es
          (applyOne overwrite storeFail attachments actions e st).2).1,
       (applyItems overwrite storeFail attachments actions es
          (applyOne overwrite storeFail attachments actions e st).2).2) := rfl

theorem applyItems_append (overwrite : Bool) (storeFail : Nat → Option String)
    (attachments : List String) (actions : List (Nat × ContactAction))
    (xs ys : List ReportEntry) (st : Stores) :
    applyItems overwrite storeFail attachments actions (xs ++ ys) st =
      (addOutcome (applyItems overwrite storeFail attachments actions xs st).1
        (applyItems overwrite storeFail attachments actions ys
          (applyItems overwrite storeFail attachments actions xs st).2).1,
       (applyItems overwrite storeFail attachments actions ys
          (applyItems overwrite storeFail attachments actions xs st).2).2) := by
  induction xs generalizing st with
  | nil => simp [applyItems_nil, addOutcome_empty_left]
  | cons e xs' ih =>
    rw [List.cons_append, applyItems_cons, applyItems_cons, ih, addOutcome_assoc]

theorem applyOne_create_ok (overwrite : Bool) (storeFail : Nat → Option String)
    (attachments : List String) (actions : List (Nat × ContactAction))
    (e : ReportEntry) (st : Stores)
    (h1 : resolveAction actions e.index = ContactAction.create)
    (h2 : storeFail e.index = Option.none) :
    applyOne overwrite storeFail attachments actions e st =
      (⟨0, 1, 0, []⟩,
       ⟨st.contacts ++ [contactOfIncoming (freshId st) e.incoming],
        st.vector ++ attachments.map (fun f => (freshId st, f))⟩) := by
  rw [applyOne, h1, h2]

theorem applyOne_create_fail (overwrite : Bool) (storeFail : Nat → Option String)
    (attachments : List String) (actions : List (Nat × ContactAction))
    (e : ReportEntry) (st : Stores) (reason : String)
    (h1 : resolveAction actions e.index = ContactAction.create)
    (h2 : storeFail e.index = some reason) :
    applyOne overwrite storeFail attachments actions e st =
      (⟨0, 0, 0, [⟨e.index, reason⟩]⟩, st) := by
  rw [applyOne, h1, h2]

theorem applyItems_create_ok (overwrite : Bool) (storeFail : Nat → Option String)
    (attachments : List String) (actions : List (Nat × ContactAction)) :
    ∀ (es : List ReportEntry) (st : Stores),
      (∀ e ∈ es, resolveAction actions e.index = ContactAction.create) →
      (∀ e ∈ es, storeFail e.index = Option.none) →
      ∃ st' : Stores,
        applyItems overwrite storeFail attachments actions es st = (⟨0, es.length, 0, []⟩, st') ∧
        st'.contacts.length = st.contacts.length + es.length := by
  intro es
  induction es with
  | nil =>
    intro st _ _
    exact ⟨st, rfl, rfl⟩
  | cons e es' ih =>
    intro st h1 h2
    have he1 := h1 e (by simp)
    have he2 := h2 e (by simp)
    rw [applyItems_cons, applyOne_create_ok overwrite storeFail attachments actions e st he1 he2]
    obtain ⟨st', hst', hlen⟩ :=
      ih ⟨st.contacts ++ [contactOfIncoming (freshId st) e.incoming],
          st.vector ++ attachments.map (fun f => (freshId st, f))⟩
        (fun x hx => h1 x (List.mem_cons_of_mem e hx))
        (fun x hx => h2 x (List.mem_cons_of_mem e hx))
    refine ⟨st', ?_, ?_⟩
    · rw [hst']
      simp [addOutcome, Nat.add_comm]
    · rw [hlen]
      simp
      omega

/-! ## Claim theorems -/

/-- C8: the Name Normalizer `normalizeVcfName` is a pure total function that
maps the empty string to the empty string, is idempotent, lower-cases every
character of its output, and produces a trimmed string with no internal
whitespace run longer than a single space. -/
theorem normalizer_props :
    normalizeVcfName "" = ""
    ∧ (∀ s : String, normalizeVcfName (normalizeVcfName s) = normalizeVcfName s)
    ∧ (∀ s : String, ((normalizeVcfName s).toList.all (fun c => Char.toLower c == c)) = true)
    ∧ (∀ s : String, normShape (normalizeVcfName s).toList = true) := by
  refine ⟨rfl, normalizeVcfName_idem, ?_, normShape_normalizeVcfName⟩
  intro s
  simp only [List.all_eq_true, beq_iff_eq]
  exact normalize_chars_lower s

/-- C7 counterexample: the per-contact record shape the React review UI
consumes (`VcfContact`, src/frontend/src/types/index.ts) has no
`matched_contact_id` field, contrary to the claimed minimum shape. -/
theorem report_shape_counterexample :
    vcfContactFields.contains "matched_contact_id" = false := by decide

/-- C7 (amended): each per-contact record exposes `index`, the incoming
`vcf_name`/`vcf_email`/`vcf_phone`, `match_type`, and the matched contact's
name and company — but no `matched_contact_id` field. -/
theorem report_record_shape :
    (["index", "vcf_name", "vcf_email", "vcf_phone", "match_type",
      "matched_contact_name", "matched_contact_company"].all
        (fun f => vcfContactFields.contains f)) = true
    ∧ vcfContactFields.contains "matched_contact_id" = false := by decide

/-- C6: `Cancel` performs no mutation of contact data in either store — the
server-side cancel leaves the stores untouched and only removes the staged
files of the report, and the React cancel handler issues no HTTP request at
all while clearing the staged-file reference (`vcfTempDir`), the report and
the action map. -/
theorem cancel_frame_effects :
    (∀ (report : MatchReport) (st : Stores) (staged : List String),
      (cancelServer report st staged).1 = st
      ∧ ((cancelServer report st staged).2.contains report.temp_dir) = false)
    ∧ (∀ s : VcfHookState,
      (handleCancelVcfEnrichment s).2 = []
      ∧ (handleCancelVcfEnrichment s).1.vcfMatchReport = Option.none
      ∧ (handleCancelVcfEnrichment s).1.vcfTempDir = Option.none
      ∧ (handleCancelVcfEnrichment s).1.vcfContactActions = []) := by
  constructor
  · intro report st staged
    refine ⟨rfl, ?_⟩
    simp [cancelServer, List.contains, List.elem_eq_mem, List.mem_filter]
  · intro s
    exact ⟨rfl, rfl, rfl, rfl⟩

/-- C5: an index absent from the action map resolves to `skip` (never to
`create` or `merge`), and the proposed default actions built at upload time
assign `merge` exactly to `exact`-classified contacts and `skip` to all
others. -/
theorem action_default_skip_and_proposal :
    (∀ (actions : List (Nat × ContactAction)) (idx : Nat),
      actions.lookup idx = Option.none → resolveAction actions idx = ContactAction.skip)
    ∧ (∀ (cs : List VcfContact), ∀ c ∈ cs,
        (c.index, if c.match_type = MatchType.exact then ContactAction.merge
          else ContactAction.skip) ∈ initialVcfActions cs)
    ∧ (∀ (cs : List VcfContact), ∀ p ∈ initialVcfActions cs,
        ∃ c ∈ cs, p.1 = c.index ∧
          p.2 = (if c.match_type = MatchType.exact then ContactAction.merge
            else ContactAction.skip)) := by
  refine ⟨?_, ?_, ?_⟩
  · intro actions idx h
    rw [resolveAction, h]
  · intro cs c hc
    exact List.mem_map.2 ⟨c, hc, rfl⟩
  · intro cs p hp
    rcases List.mem_map.1 hp with ⟨c, hc, hcp⟩
    exact ⟨c, hc, by rw [← hcp], by rw [← hcp]⟩

/-- C5 witness: on the empty action map index 0 resolves to `skip`, and an
`exact`-classified contact at index "7" is proposed `merge`. -/
theorem action_default_skip_and_proposal_witness :
    ([] : List (Nat × ContactAction)).lookup 0 = Option.none
    ∧ resolveAction [] 0 = ContactAction.skip
    ∧ ("7", ContactAction.merge) ∈ initialVcfActions
        [⟨"7", "john doe", Option.none, Option.none, MatchType.exact,
          Option.none, Option.none⟩] :=
  ⟨rfl, action_default_skip_and_proposal.1 [] 0 rfl, by
    have := action_default_skip_and_proposal.2.1
      [⟨"7", "john doe", Option.none, Option.none, MatchType.exact, Option.none, Option.none⟩]
      ⟨"7", "john doe", Option.none, Option.none, MatchType.exact, Option.none, Option.none⟩
      (by simp)
    simpa using this⟩

/-- C9: the Flutter confirm flow assigns an action to every contact of the
report — `merge` exactly when its `match_type` is `exact` and `create`
otherwise — so it never submits a `skip` action. -/
theorem flutter_confirm_actions :
    (∀ cs : List VcfContact, (flutterContactActions cs).length = cs.length)
    ∧ (∀ cs : List VcfContact, ∀ c ∈ cs,
        (c.index, if c.match_type = MatchType.exact then ContactAction.merge
          else ContactAction.create) ∈ flutterContactActions cs)
    ∧ (∀ cs : List VcfContact, ∀ p ∈ flutterContactActions cs,
        p.2 ≠ ContactAction.skip
        ∧ ∃ c ∈ cs, p.1 = c.index
            ∧ (p.2 = ContactAction.merge ↔ c.match_type = MatchType.exact)
            ∧ (c.match_type ≠ MatchType.exact → p.2 = ContactAction.create)) := by
  refine ⟨?_, ?_, ?_⟩
  · intro cs
    simp [flutterContactActions]
  · intro cs c hc
    exact List.mem_map.2 ⟨c, hc, rfl⟩
  · intro cs p hp
    rcases List.mem_map.1 hp with ⟨c, hc, hcp⟩
    subst hcp
    constructor
    · by_cases hmt : c.match_type = MatchType.exact <;> simp [hmt]
    · refine ⟨c, hc, rfl, ?_, ?_⟩
      · by_cases hmt : c.match_type = MatchType.exact <;> simp [hmt]
      · intro hne
        simp [hne]

/-- C9 witness: a two-contact report (one `exact`, one `none`) produces
`merge` for the first and `create` for the second; neither is `skip`. -/
theorem flutter_confirm_actions_witness :
    ("0", ContactAction.merge) ∈ flutterContactActions
      [⟨"0", "john doe", Option.none, Option.none, MatchType.exact, Option.none, Option.none⟩,
       ⟨"1", "alice", Option.none, Option.none, MatchType.none, Option.none, Option.none⟩]
    ∧ ("1", ContactAction.create) ∈ flutterContactActions
      [⟨"0", "john doe", Option.none, Option.none, MatchType.exact, Option.none, Option.none⟩,
       ⟨"1", "alice", Option.none, Option.none, MatchType.none, Option.none, Option.none⟩] := by
  constructor
  · have := flutter_confirm_actions.2.1
      [⟨"0", "john doe", Option.none, Option.none, MatchType.exact, Option.none, Option.none⟩,
       ⟨"1", "alice", Option.none, Option.none, MatchType.none, Option.none, Option.none⟩]
      ⟨"0", "john doe", Option.none, Option.none, MatchType.exact, Option.none, Option.none⟩
      (by simp)
    simpa using this
  · have := flutter_confirm_actions.2.1
      [⟨"0", "john doe", Option.none, Option.none, MatchType.exact, Option.none, Option.none⟩,
       ⟨"1", "alice", Option.none, Option.none, MatchType.none, Option.none, Option.none⟩]
      ⟨"1", "alice", Option.none, Option.none, MatchType.none, Option.none, Option.none⟩
      (by simp)
    simpa using this

/-- C10: when the confirm-enrichment request fails, the React hook keeps
`vcfMatchReport`, `vcfTempDir` and `vcfContactActions` at their prior
values; they are cleared exactly by a successful commit or by the explicit
cancel handler. -/
theorem confirm_failure_preserves_state :
    ∀ (userId : String) (s : VcfHookState) (d : String),
      s.vcfTempDir = some d →
      ((handleConfirmVcfEnrichment userId s ReqOutcome.err).1.vcfMatchReport = s.vcfMatchReport
        ∧ (handleConfirmVcfEnrichment userId s ReqOutcome.err).1.vcfTempDir = s.vcfTempDir
        ∧ (handleConfirmVcfEnrichment userId s ReqOutcome.err).1.vcfContactActions
            = s.vcfContactActions)
      ∧ (∀ enriched created : Nat,
          (handleConfirmVcfEnrichment userId s
            (ReqOutcome.ok enriched created)).1.vcfMatchReport = Option.none
          ∧ (handleConfirmVcfEnrichment userId s
              (ReqOutcome.ok enriched created)).1.vcfTempDir = Option.none
          ∧ (handleConfirmVcfEnrichment userId s
              (ReqOutcome.ok enriched created)).1.vcfContactActions = [])
      ∧ ((handleCancelVcfEnrichment s).1.vcfMatchReport = Option.none
          ∧ (handleCancelVcfEnrichment s).1.vcfTempDir = Option.none
          ∧ (handleCancelVcfEnrichment s).1.vcfContactActions = []) := by
  intro userId s d hd
  refine ⟨?_, ?_, rfl, rfl, rfl⟩
  · simp [handleConfirmVcfEnrichment, hd]
  · intro enriched created
    simp [handleConfirmVcfEnrichment, hd]

/-- C10 witness: a concrete in-flight state with a staged temp dir keeps its
report, temp dir and action map across a failed confirm request. -/
theorem confirm_failure_preserves_state_witness :
    (VcfHookState.mk true (some ⟨1, 1, 0, 0, []⟩) (some "tmp_abc") false
        [("0", ContactAction.merge)] Option.none).vcfTempDir = some "tmp_abc"
    ∧ ((handleConfirmVcfEnrichment "user@x.com"
          (VcfHookState.mk true (some ⟨1, 1, 0, 0, []⟩) (some "tmp_abc") false
            [("0", ContactAction.merge)] Option.none)
          ReqOutcome.err).1.vcfMatchReport = some ⟨1, 1, 0, 0, []⟩
        ∧ (handleConfirmVcfEnrichment "user@x.com"
            (VcfHookState.mk true (some ⟨1, 1, 0, 0, []⟩) (some "tmp_abc") false
              [("0", ContactAction.merge)] Option.none)
            ReqOutcome.err).1.vcfTempDir = some "tmp_abc"
        ∧ (handleConfirmVcfEnrichment "user@x.com"
            (VcfHookState.mk true (some ⟨1, 1, 0, 0, []⟩) (some "tmp_abc") false
              [("0", ContactAction.merge)] Option.none)
            ReqOutcome.err).1.vcfContactActions = [("0", ContactAction.merge)]) :=
  ⟨rfl,
   (confirm_failure_preserves_state "user@x.com"
      (VcfHookState.mk true (some ⟨1, 1, 0, 0, []⟩) (some "tmp_abc") false
        [("0", ContactAction.merge)] Option.none) "tmp_abc" rfl).1⟩

/-- C1: the committer's merge obeys the batch-level `overwrite` flag: with
`overwrite` every non-empty incoming field replaces the existing value; without
it a non-empty existing field keeps its old value and only empty/null fields
are filled; and name fields are never set to empty by a merge. -/
theorem merge_policy_overwrite_flag :
    ∀ (overwrite : Bool) (inc : IncomingContact) (c : ExistingContact),
      (∀ v : String, overwrite = true → inc.email = some v → v ≠ "" →
        (mergeContact overwrite inc c).email = some v)
      ∧ (∀ v : String, overwrite = true → inc.phone = some v → v ≠ "" →
        (mergeContact overwrite inc c).phone = some v)
      ∧ (∀ ev : String, overwrite = false → c.email = some ev → ev ≠ "" →
        (mergeContact overwrite inc c).email = some ev)
      ∧ (∀ ev : String, overwrite = false → c.phone = some ev → ev ≠ "" →
        (mergeContact overwrite inc c).phone = some ev)
      ∧ (∀ v : String, overwrite = false → c.email = Option.none → inc.email = some v → v ≠ "" →
        (mergeContact overwrite inc c).email = some v)
      ∧ (overwrite = true → incomingFirstName inc ≠ "" →
        (mergeContact overwrite inc c).first_name = incomingFirstName inc)
      ∧ (c.first_name ≠ "" → (mergeContact overwrite inc c).first_name ≠ "")
      ∧ (c.last_name ≠ "" → (mergeContact overwrite inc c).last_name ≠ "") := by
  intro overwrite inc c
  refine ⟨?_, ?_, ?_, ?_, ?_, ?_, ?_, ?_⟩
  · intro v how hv hne
    subst how
    simp [mergeContact, mergeOptField, hv, hne]
  · intro v how hv hne
    subst how
    simp [mergeContact, mergeOptField, hv, hne]
  · intro ev how hce hev
    subst how
    cases hie : inc.email with
    | none => simp [mergeContact, mergeOptField, hie, hce]
    | some v =>
      by_cases hv : v = "" <;> simp [mergeContact, mergeOptField, hie, hce, hev, hv]
  · intro ev how hce hev
    subst how
    cases hie : inc.phone with
    | none => simp [mergeContact, mergeOptField, hie, hce]
    | some v =>
      by_cases hv : v = "" <;> simp [mergeContact, mergeOptField, hie, hce, hev, hv]
  · intro v how hce hiv hne
    subst how
    simp [mergeContact, mergeOptField, hce, hiv, hne]
  · intro how hif
    subst how
    simp [mergeContact, mergeNamePart, hif]
  · intro hne
    show mergeNamePart overwrite (incomingFirstName inc) c.first_name ≠ ""
    rw [mergeNamePart]
    split_ifs <;> simp_all
  · intro hne
    show mergeNamePart overwrite (incomingLastName inc) c.last_name ≠ ""
    rw [mergeNamePart]
    split_ifs <;> simp_all

/-- C1 witness: the spec's own example — merging `{email: "a@x.com"}` into
`{email: "existing@y.com"}` keeps the old email when `overwrite=false` and
replaces it when `overwrite=true`. -/
theorem merge_policy_overwrite_flag_witness :
    (mergeContact false ⟨"", some "a@x.com", Option.none⟩
      ⟨1, "John", "Doe", some "existing@y.com", Option.none, Option.none,
        Option.none, []⟩).email = some "existing@y.com"
    ∧ (mergeContact true ⟨"", some "a@x.com", Option.none⟩
      ⟨1, "John", "Doe", some "existing@y.com", Option.none, Option.none,
        Option.none, []⟩).email = some "a@x.com" :=
  ⟨(merge_policy_overwrite_flag false ⟨"", some "a@x.com", Option.none⟩
      ⟨1, "John", "Doe", some "existing@y.com", Option.none, Option.none,
        Option.none, []⟩).2.2.1 "existing@y.com" rfl rfl (by decide),
   (merge_policy_overwrite_flag true ⟨"", some "a@x.com", Option.none⟩
      ⟨1, "John", "Doe", some "existing@y.com", Option.none, Option.none,
        Option.none, []⟩).1 "a@x.com" rfl rfl (by decide)⟩

/-- C2: if the action map carries `merge` at any index classified `none`,
`commit` fails fast with `InvalidActionError` naming an offending index and
returns both stores unchanged (zero mutations). -/
theorem commit_invalid_merge_fail_fast :
    ∀ (report : MatchReport) (actions : List (Nat × ContactAction)) (overwrite : Bool)
      (storeFail : Nat → Option String) (st : Stores) (staged : List String),
      (∃ e ∈ report.entries,
        resolveAction actions e.index = ContactAction.merge ∧ e.match_type = MatchType.none) →
      ∃ e ∈ report.entries,
        resolveAction actions e.index = ContactAction.merge ∧ e.match_type = MatchType.none ∧
        commit report actions overwrite storeFail st staged =
          (Except.error ⟨e.index⟩, st, staged.filter (fun d => !(d == report.temp_dir))) := by
  intro report actions overwrite storeFail st staged h
  obtain ⟨e0, he0, hm, hn⟩ := h
  have hsome : (report.entries.find? (violatesMergePolicy actions)).isSome :=
    List.find?_isSome.2 ⟨e0, he0, by simp [violatesMergePolicy, hm, hn]⟩
  obtain ⟨e1, he1⟩ := Option.isSome_iff_exists.1 hsome
  have he1mem := List.mem_of_find?_eq_some he1
  have he1p := List.find?_some he1
  simp only [violatesMergePolicy, decide_eq_true_eq] at he1p
  refine ⟨e1, he1mem, he1p.1, he1p.2, ?_⟩
  simp [commit, he1]

/-- C2 witness: a one-entry report classified `none` with `merge` submitted
at its index makes `commit` return `InvalidActionError 0` with the stores
untouched. -/
theorem commit_invalid_merge_fail_fast_witness :
    (∃ e ∈ (MatchReport.mk [⟨0, ⟨"alice", Option.none, Option.none⟩, MatchType.none,
        Option.none⟩] "tmp_w" []).entries,
      resolveAction [(0, ContactAction.merge)] e.index = ContactAction.merge
        ∧ e.match_type = MatchType.none)
    ∧ ∃ e ∈ (MatchReport.mk [⟨0, ⟨"alice", Option.none, Option.none⟩, MatchType.none,
        Option.none⟩] "tmp_w" []).entries,
      resolveAction [(0, ContactAction.merge)] e.index = ContactAction.merge
        ∧ e.match_type = MatchType.none
        ∧ commit (MatchReport.mk [⟨0, ⟨"alice", Option.none, Option.none⟩, MatchType.none,
              Option.none⟩] "tmp_w" [])
            [(0, ContactAction.merge)] false (fun _ => Option.none)
            (Stores.mk [] []) ["tmp_w"] =
          (Except.error ⟨e.index⟩, Stores.mk [] [],
            (["tmp_w"].filter (fun d => !(d == "tmp_w")))) :=
  ⟨by decide,
   commit_invalid_merge_fail_fast
     (MatchReport.mk [⟨0, ⟨"alice", Option.none, Option.none⟩, MatchType.none, Option.none⟩]
       "tmp_w" [])
     [(0, ContactAction.merge)] false (fun _ => Option.none) (Stores.mk [] []) ["tmp_w"]
     (by decide)⟩

/-- C3: the committer isolates per-item persistence failures: in a batch of
resolved `create` actions where the store write fails for exactly one entry,
`commit` still applies all other entries (the contact store grows by N-1) and
returns the full `EnrichmentOutcome`: counts of merged/created/skipped plus
the failed index with its reason — not a bare boolean. -/
theorem commit_isolates_item_failures :
    ∀ (report : MatchReport) (actions : List (Nat × ContactAction)) (overwrite : Bool)
      (storeFail : Nat → Option String) (st : Stores) (staged : List String)
      (pre post : List ReportEntry) (ek : ReportEntry) (reason : String),
      report.entries = pre ++ ek :: post →
      (∀ e ∈ report.entries, resolveAction actions e.index = ContactAction.create) →
      (∀ e ∈ pre, storeFail e.index = Option.none) →
      (∀ e ∈ post, storeFail e.index = Option.none) →
      storeFail ek.index = some reason →
      ∃ st' : Stores,
        commit report actions overwrite storeFail st staged =
          (Except.ok ⟨0, report.entries.length - 1, 0, [⟨ek.index, reason⟩]⟩, st',
            staged.filter (fun d => !(d == report.temp_dir))) ∧
        st'.contacts.length = st.contacts.length + (report.entries.length - 1) := by
  intro report actions overwrite storeFail st staged pre post ek reason hsplit hall hpre hpost hek
  have hfind : report.entries.find? (violatesMergePolicy actions) = Option.none := by
    apply List.find?_eq_none.2
    intro e he
    simp [violatesMergePolicy, hall e he]
  obtain ⟨st1, h1, hlen1⟩ :=
    applyItems_create_ok overwrite storeFail report.attachments actions pre st
      (fun e he => hall e (by rw [hsplit]; exact List.mem_append_left _ he)) hpre
  obtain ⟨st2, h2, hlen2⟩ :=
    applyItems_create_ok overwrite storeFail report.attachments actions post st1
      (fun e he => hall e (by
        rw [hsplit]; exact List.mem_append_right _ (List.mem_cons_of_mem ek he))) hpost
  have hek_res : resolveAction actions ek.index = ContactAction.create :=
    hall ek (by rw [hsplit]; exact List.mem_append_right _ (by simp))
  have hcons : applyItems overwrite storeFail report.attachments actions (ek :: post) st1 =
      (⟨0, post.length, 0, [⟨ek.index, reason⟩]⟩, st2) := by
    rw [applyItems_cons,
      applyOne_create_fail overwrite storeFail report.attachments actions ek st1 reason
        hek_res hek]
    simp [h2, addOutcome]
  have happ : applyItems overwrite storeFail report.attachments actions (pre ++ ek :: post) st =
      (⟨0, pre.length + post.length, 0, [⟨ek.index, reason⟩]⟩, st2) := by
    rw [applyItems_append, h1]
    simp [hcons, addOutcome]
  have hN : report.entries.length - 1 = pre.length + post.length := by
    rw [hsplit]
    simp [List.length_append]
  refine ⟨st2, ?_, by omega⟩
  simp only [commit, hfind, hN]
  rw [hsplit, happ]

/-- C3 witness: among three `create` actions the middle store write fails;
`commit` reports `created = 2`, `failures = [(1, "db constraint")]`, and the
store holds the two other contacts. -/
theorem commit_isolates_item_failures_witness :
    ∃ st' : Stores,
      commit
        (MatchReport.mk
          [⟨0, ⟨"alice a", Option.none, Option.none⟩, MatchType.none, Option.none⟩,
           ⟨1, ⟨"bob b", Option.none, Option.none⟩, MatchType.none, Option.none⟩,
           ⟨2, ⟨"carol c", Option.none, Option.none⟩, MatchType.none, Option.none⟩]
          "tmp_f" [])
        [(0, ContactAction.create), (1, ContactAction.create), (2, ContactAction.create)]
        false (fun i => if i = 1 then some "db constraint" else Option.none)
        (Stores.mk [] []) ["tmp_f"] =
        (Except.ok ⟨0, (3 : Nat) - 1, 0, [⟨1, "db constraint"⟩]⟩, st',
          (["tmp_f"].filter (fun d => !(d == "tmp_f")))) ∧
      st'.contacts.length = (Stores.mk [] []).contacts.length + ((3 : Nat) - 1) :=
  commit_isolates_item_failures
    (MatchReport.mk
      [⟨0, ⟨"alice a", Option.none, Option.none⟩, MatchType.none, Option.none⟩,
       ⟨1, ⟨"bob b", Option.none, Option.none⟩, MatchType.none, Option.none⟩,
       ⟨2, ⟨"carol c", Option.none, Option.none⟩, MatchType.none, Option.none⟩]
      "tmp_f" [])
    [(0, ContactAction.create), (1, ContactAction.create), (2, ContactAction.create)]
    false (fun i => if i = 1 then some "db constraint" else Option.none)
    (Stores.mk [] []) ["tmp_f"]
    [⟨0, ⟨"alice a", Option.none, Option.none⟩, MatchType.none, Option.none⟩]
    [⟨2, ⟨"carol c", Option.none, Option.none⟩, MatchType.none, Option.none⟩]
    ⟨1, ⟨"bob b", Option.none, Option.none⟩, MatchType.none, Option.none⟩
    "db constraint"
    rfl (by decide) (by decide) (by decide) (by decide)

/-- C4 counterexample: `"John Paul Smith"` and existing contact
`first="John  Paul", last="Smith"` have equal case/whitespace-insensitive
normalized full names, yet the classifier yields `partial`, not `exact`
(the existing side is only lower-cased and edge-trimmed, never collapsed);
and an empty incoming name classifies `exact`, not `none`, against a contact
whose first and last names are both empty. -/
theorem classifier_exact_claim_counterexample :
    normalizeVcfName "John Paul Smith" = normalizeVcfName ("John  Paul" ++ " " ++ "Smith")
    ∧ (matchVcfToContact ⟨"John Paul Smith", Option.none, Option.none⟩
        [⟨1, "John  Paul", "Smith", Option.none, Option.none, Option.none,
          Option.none, []⟩]).match_type = MatchType.part
    ∧ (matchVcfToContact ⟨"", Option.none, Option.none⟩
        [⟨1, "", "", Option.none, Option.none, Option.none,
          Option.none, []⟩]).match_type = MatchType.exact :=
  ⟨by decide, by decide, by decide⟩

/-- C4 (amended): the classifier is a total function; whenever the normalized
incoming full name equals the lower-cased, edge-trimmed (but not internally
collapsed) `"{first} {last}"` of some existing contact, classification is
`exact` and the match is the first such contact in enumeration order; and an
empty-string incoming name classifies as `none`, provided no existing contact
has an entirely empty full-name key. -/
theorem classifier_exact_first_match :
    (∀ (vcf : IncomingContact) (existing : List ExistingContact),
      (∃ c ∈ existing, strat1 (normalizeVcfName vcf.full_name) c = true) →
      ∃ c : ExistingContact,
        existing.find? (strat1 (normalizeVcfName vcf.full_name)) = some c
        ∧ matchVcfToContact vcf existing = ⟨MatchType.exact, some c⟩)
    ∧ (∀ (vcf : IncomingContact) (existing : List ExistingContact),
      vcf.full_name = "" →
      (∀ c ∈ existing, contactFullKey c ≠ "") →
      matchVcfToContact vcf existing = ⟨MatchType.none, Option.none⟩) := by
  constructor
  · intro vcf existing h
    obtain ⟨c0, hc0, hs⟩ := h
    have hsome : (existing.find? (strat1 (normalizeVcfName vcf.full_name))).isSome :=
      List.find?_isSome.2 ⟨c0, hc0, hs⟩
    obtain ⟨c1, hc1⟩ := Option.isSome_iff_exists.1 hsome
    refine ⟨c1, hc1, ?_⟩
    simp [matchVcfToContact, hc1]
  · intro vcf existing hname hkeys
    have h1 : normalizeVcfName vcf.full_name = "" := by rw [hname]; rfl
    have hfind : existing.find? (strat1 (normalizeVcfName vcf.full_name)) = Option.none := by
      apply List.find?_eq_none.2
      intro c hc hbe
      simp only [strat1, h1, beq_iff_eq] at hbe
      exact hkeys c hc hbe.symm
    have h2 : pySplit (normalizeVcfName vcf.full_name) = [] := by rw [h1]; rfl
    simp [matchVcfToContact, hfind, h2]

/-- C4 witness: `"John Doe"` exactly matches existing contact
`(John, Doe)` and classifies `exact` with that contact matched; an empty
incoming name against that same contact classifies `none`. -/
theorem classifier_exact_first_match_witness :
    (∃ c ∈ [ExistingContact.mk 1 "John" "Doe" Option.none Option.none Option.none
        Option.none []],
      strat1 (normalizeVcfName (IncomingContact.mk "John Doe" Option.none Option.none).full_name)
        c = true)
    ∧ (∃ c : ExistingContact,
        [ExistingContact.mk 1 "John" "Doe" Option.none Option.none Option.none
            Option.none []].find?
          (strat1 (normalizeVcfName
            (IncomingContact.mk "John Doe" Option.none Option.none).full_name)) = some c
        ∧ matchVcfToContact (IncomingContact.mk "John Doe" Option.none Option.none)
            [ExistingContact.mk 1 "John" "Doe" Option.none Option.none Option.none
              Option.none []] = ⟨MatchType.exact, some c⟩)
    ∧ matchVcfToContact (IncomingContact.mk "" Option.none Option.none)
        [ExistingContact.mk 1 "John" "Doe" Option.none Option.none Option.none
          Option.none []] = ⟨MatchType.none, Option.none⟩ :=
  ⟨by decide,
   classifier_exact_first_match.1 (IncomingContact.mk "John Doe" Option.none Option.none)
     [ExistingContact.mk 1 "John" "Doe" Option.none Option.none Option.none Option.none []]
     (by decide),
   classifier_exact_first_match.2 (IncomingContact.mk "" Option.none Option.none)
     [ExistingContact.mk 1 "John" "Doe" Option.none Option.none Option.none Option.none []]
     rfl (by decide)⟩
